import Mathlib

/-!
Shallow embedding of `bids/analysis/model_design.py`.

Conventions used throughout:
* Python dicts that preserve insertion order are modelled as association
  lists (`List (String × α)`) with first-match lookup and in-place update.
* Numeric matrices (numpy 2-D arrays / pandas DataFrame values) are
  modelled column-major: `Mat.cols` is the list of columns, each column a
  `List Int` of length `Mat.nrows`.  `np.concatenate(_, axis=1)` is then
  list append over the column lists.
* Fallible Python code (raise ValueError / KeyError / IndexError) is
  modelled with `Except String`; the string carries the message, with
  Python quote characters elided.
-/

namespace ModelDesign

/-- A transformation spec, i.e. one element of the `transformations` list
passed to `TransformerManager.transform`: a dict holding the required
`Name` key, the optional `Input` key, and the remaining keyword items. -/
structure TSpecD where
  Name : String
  Input : Option (List String)
  kwargs : List (String × Int)

/-- A transformation handler: receives the collection, the `Input` column
list and the remaining keyword arguments, and returns the (mutated)
collection.  Mutation of the collection is modelled by returning the new
value. -/
def Handler (C : Type) : Type := C → Option (List String) → List (String × Int) → C

/-- First-match lookup in an insertion-ordered dict. -/
def alist_get {α : Type} : List (String × α) → String → Option α
  | [], _ => none
  | (k2, v) :: rest, k => if k2 = k then some v else alist_get rest k

/-- Python dict assignment `d[k] = v`: overwrite in place if the key is
present (keeping its insertion position), else append. -/
def dictSet {α : Type} : List (String × α) → String → α → List (String × α)
  | [], k, v => [(k, v)]
  | (k2, v2) :: rest, k, v =>
      if k2 = k then (k, v) :: rest else (k2, v2) :: dictSet rest k v

/-- `TransformerManager`: the instance registry plus the default fallback
module.  `hasattr(default, name)` / `getattr(default, name)` on the module
object are modelled together as a single partial map from names to
handlers. -/
structure TransformerManager (C : Type) where
  transformations : List (String × Handler C)
  default : String → Option (Handler C)

/-- `TransformerManager._sanitize_name`: append a trailing underscore to
the reserved names And / Or, pass every other name through. -/
def sanitize_name (name : String) : String :=
  if name = "And" ∨ name = "Or" then name ++ "_" else name

/-- `TransformerManager.register`: store the handler under the sanitized
name, overwriting any previous entry. -/
def TransformerManager.register {C : Type} (tm : TransformerManager C)
    (name : String) (func : Handler C) : TransformerManager C :=
  { tm with transformations := dictSet tm.transformations (sanitize_name name) func }

/-- One iteration of the loop in `TransformerManager.transform`.  The
source looks the sanitized name up in the instance registry and falls back
on the default module; as written, the call `func(collection, cols,
**kwargs)` sits inside the `if func is None:` block, so a handler that was
found in the instance registry is never invoked and the collection passes
through unchanged; only default-module handlers are invoked. -/
def transformStep {C : Type} (tm : TransformerManager C) (coll : C)
    (t : TSpecD) : Except String C :=
  let name := sanitize_name t.Name
  match alist_get tm.transformations name with
  | some _ => Except.ok coll
  | none =>
      match tm.default name with
      | none => Except.error ("No transformation " ++ name ++ " found: either explicitly register a handler, or pass a default module that supports it.")
      | some func => Except.ok (func coll t.Input t.kwargs)

/-- `TransformerManager.transform`: fold the per-spec step over the list
of transformation specs, in list order, returning the final collection. -/
def TransformerManager.transform {C : Type} (tm : TransformerManager C)
    (coll : C) (ts : List TSpecD) : Except String C :=
  ts.foldlM (fun c t => transformStep tm c t) coll

/-- Column-major numeric matrix: `cols` lists the columns, each of length
`nrows`. -/
structure Mat where
  nrows : Nat
  cols : List (List Int)
deriving DecidableEq

/-- Concatenation of a list of lists (used for `np.concatenate(axis=1)` on
the column-major representation, and for flattened label lists). -/
def concatAll {α : Type} : List (List α) → List α
  | [] => []
  | l :: ls => l ++ concatAll ls

/-- `np.concatenate(ms, axis=1)` on column-major matrices: append the
column lists; the row count is the first block's (all blocks agree in any
well-formed call). -/
def hcat (ms : List Mat) : Mat :=
  ⟨((ms.head?).map Mat.nrows).getD 0, concatAll (ms.map Mat.cols)⟩

/-- One numpy masked assignment `vec[(col == 1)] = v`: positions where the
column holds 1 are overwritten with `v`, all others keep their value. -/
def maskAssign (vec : List Nat) (col : List Int) (v : Nat) : List Nat :=
  List.zipWith (fun old e => if e = (1 : Int) then v else old) vec col

/-- The loop of `VarComp.dummies_to_vec`: for each column index i in
order, assign i+1 at the rows where that column equals 1. -/
def d2vLoop : List Nat → Nat → List (List Int) → List Nat
  | vec, _, [] => vec
  | vec, i, c :: rest => d2vLoop (maskAssign vec c (i + 1)) (i + 1) rest

/-- `VarComp.dummies_to_vec`: start from the all-zero vector of length
`len(dummies)` (the row count) and run the per-column masked assignments
in column order. -/
def dummies_to_vec (dummies : Mat) : List Nat :=
  d2vLoop (List.replicate dummies.nrows 0) 0 dummies.cols

/-- A `Term` (also covering its subclass `VarComp`).  The dynamic type
test `isinstance(t, VarComp)` is modelled by the `isVC` flag; `index_vec`
is only ever set by the `VarComp` constructor and is `[]` on plain
`Term`s. -/
structure Term where
  name : String
  values : Mat
  categorical : Bool
  isVC : Bool
  index_vec : List Nat
deriving DecidableEq

/-- The `Term.__init__` constructor (prior/metadata carry no behaviour
here and are dropped). -/
def mkTerm (name : String) (values : Mat) (categorical : Bool) : Term :=
  ⟨name, values, categorical, false, []⟩

/-- The `VarComp.__init__` constructor: always categorical, and computes
`index_vec = dummies_to_vec(values)`. -/
def mkVarComp (name : String) (values : Mat) : Term :=
  ⟨name, values, true, true, dummies_to_vec values⟩

/-- pandas column dtypes that occur here; `Dtype.name` mirrors
`dtype.name` strings. -/
inductive Dtype where
  | int64
  | float64
  | objectD
  | categoryD
  | strD
deriving DecidableEq

/-- The `.name` string of a dtype. -/
def Dtype.name : Dtype → String
  | .int64 => "int64"
  | .float64 => "float64"
  | .objectD => "object"
  | .categoryD => "category"
  | .strD => "str"

/-- One named, typed DataFrame column. -/
structure DFCol where
  name : String
  dtype : Dtype
  data : List Int
deriving DecidableEq

/-- A pandas DataFrame: an ordered list of named, typed columns. -/
structure DataFrame where
  cols : List DFCol
deriving DecidableEq

/-- `df.loc[:, names]`: select the columns by label, in the order of
`names` (every requested label is present in the frames built here). -/
def dfLoc (df : DataFrame) (names : List String) : DataFrame :=
  ⟨names.filterMap (fun n => df.cols.find? (fun col => col.name == n))⟩

/-- `df.values` of a DataFrame, as a column-major matrix. -/
def dfValues (df : DataFrame) : Mat :=
  ⟨((df.cols.head?).map (fun c => c.data.length)).getD 0, df.cols.map DFCol.data⟩

/-- The `groups` argument of `build_variance_components`: its incidence
matrix (one row per Z column, one column per component; column-major as
usual) together with the `columns` attribute carried when the caller
passed a DataFrame rather than a plain ndarray (`getattr(groups,
'columns', ...)`). -/
structure GroupsM where
  mat : Mat
  columnsAttr : Option (List String)

/-- `np.ones((n, 1))` as a single all-ones column of length n. -/
def onesCol (n : Nat) : List Int := List.replicate n 1

/-- `Z[:, mask.astype(bool)]`: keep the columns whose mask entry is
nonzero. -/
def selectCols (Z : Mat) (mask : List Int) : Mat :=
  ⟨Z.nrows, (Z.cols.zip mask).filterMap (fun p => if p.2 = 0 then none else some p.1)⟩

/-- `GLMMSpec` state: the insertion-ordered `terms` dict plus the family,
link and sigma attributes (`priors` is a stub in the source and carries no
state). -/
structure GLMMSpec where
  terms : List (String × Term)
  family : Option String
  link : Option String
  sigma : Option Mat

/-- `GLMMSpec.add_term`: raise if the name is already a key of `terms`,
else insert the term under its name. -/
def GLMMSpec.add_term (g : GLMMSpec) (t : Term) : Except String GLMMSpec :=
  if (alist_get g.terms t.name).isSome then
    Except.error ("Term with name " ++ t.name ++ " already exists!")
  else
    Except.ok { g with terms := g.terms ++ [(t.name, t)] }

/-- The categorical test of `build_fixed_terms`:
`data.dtype.name in ('str', 'category', 'object')`. -/
def dtype_is_cat (d : Dtype) : Bool :=
  ["str", "category", "object"].contains d.name

/-- `GLMMSpec.build_fixed_terms`: one fixed `Term` per DataFrame column,
named by the column label, with values the column data and the categorical
flag inferred from the dtype; each is added via `add_term`. -/
def GLMMSpec.build_fixed_terms (g : GLMMSpec) (X : DataFrame) :
    Except String GLMMSpec :=
  X.cols.foldlM
    (fun g2 col =>
      g2.add_term (mkTerm col.name ⟨col.data.length, [col.data]⟩ (dtype_is_cat col.dtype)))
    g

/-- `GLMMSpec.build_variance_components`: default `groups` to
`np.ones((Z.shape[1], 1))`, default `names` to the groups DataFrame's
column labels when present else to VC0, VC1, ...; then for each component
select the Z columns with incidence bit set and add one `VarComp` (the
`sigma` parameter is accepted and unused, as in the source). -/
def GLMMSpec.build_variance_components (g : GLMMSpec) (Z : Mat)
    (groups : Option GroupsM) (_sigma : Option Mat)
    (names : Option (List String)) : Except String GLMMSpec :=
  let grp := groups.getD ⟨⟨Z.cols.length, [onesCol Z.cols.length]⟩, none⟩
  let n_grps := grp.mat.cols.length
  let nms := names.getD (grp.columnsAttr.getD
    ((List.range n_grps).map (fun i => "VC" ++ toString i)))
  (List.range n_grps).foldlM
    (fun g2 i =>
      match nms.get? i with
      | none => Except.error "IndexError: list index out of range"
      | some nm => g2.add_term (mkVarComp nm (selectCols Z (grp.mat.cols.getD i []))))
    g

/-- `GLMMSpec.fixed_terms`: the non-`VarComp` terms, in insertion order. -/
def GLMMSpec.fixed_terms (g : GLMMSpec) : List Term :=
  (g.terms.map Prod.snd).filter (fun t => !t.isVC)

/-- `GLMMSpec.variance_components`: the `VarComp` terms, in insertion
order. -/
def GLMMSpec.variance_components (g : GLMMSpec) : List Term :=
  (g.terms.map Prod.snd).filter (fun t => t.isVC)

/-- The `GLMMSpec.X` property.  The source reads
`names, cols = zip([(c.name, c.values) for c in self.fixed_terms])`:
`zip` applied to the list itself (no unpacking star), so it yields one
singleton tuple per fixed term.  Destructuring that into two targets
raises unless there are exactly two fixed terms, and with exactly two,
`cols` is a singleton tuple holding the second (name, values) pair, which
`np.concatenate(..., axis=1)` rejects (its lone element is not a 2-D
array).  So the property returns `None` when there are no fixed terms and
raises otherwise; the modelled messages summarise the Python ones. -/
def GLMMSpec.Xdm (g : GLMMSpec) :
    Except String (Option (List String × Mat)) :=
  let ft := g.fixed_terms
  if ft.isEmpty then Except.ok none
  else
    match (ft.map (fun t => (t.name, t.values))).map (fun p => [p]) with
    | [_names, _cols] =>
        Except.error "numpy concatenate: axis 1 is out of bounds, the lone element of cols is a pair and not a 2-D array"
    | zs =>
        Except.error ("ValueError: values to unpack: expected 2, got " ++ toString zs.length)

/-- The `GLMMSpec.Z` property: `None` when there are no variance
components, else the horizontal concatenation of their values with labels
name.0, name.1, ... per component block. -/
def GLMMSpec.Zdm (g : GLMMSpec) : Option (List String × Mat) :=
  let vcs := g.variance_components
  if vcs.isEmpty then none
  else
    let names := concatAll (vcs.map (fun t =>
      (List.range t.values.cols.length).map (fun i => t.name ++ "." ++ toString i)))
    some (names, hcat (vcs.map Term.values))

/-- `GLMMSpec.__init__`: start from empty terms, add the explicit terms
list, then the fixed terms from X, then the variance components from
(Z, groups, sigma). -/
def GLMMSpec.init (terms : Option (List Term)) (X : Option DataFrame)
    (Z : Option Mat) (groups : Option GroupsM) (sigma : Option Mat)
    (family link : Option String) : Except String GLMMSpec :=
  let g0 : GLMMSpec := ⟨[], family, link, sigma⟩
  (match terms with
   | some ts => ts.foldlM GLMMSpec.add_term g0
   | none => Except.ok g0) >>= fun g1 =>
  (match X with
   | some x => g1.build_fixed_terms x
   | none => Except.ok g1) >>= fun g2 =>
  (match Z with
   | some z => g2.build_variance_components z groups sigma none
   | none => Except.ok g2)

/-- The variable-collection collaborator contract used by
`GLMMSpec.from_collection`: the run-level type test
`isinstance(collection, BIDSRunVariableCollection)`, the `all_dense()`
check, name matching, tabular extraction and raw value access. -/
structure Collection where
  isRunLevel : Bool
  all_dense : Bool
  match_variables : List String → List String
  to_df : List String → DataFrame
  variablesD : String → Option (List Int)

/-- One `VarianceComponents` descriptor dict: each field is `some` exactly
when the corresponding key is present. -/
structure VCDesc where
  LevelsFrom : Option String
  Levels : Option (List String)
  Name : Option String

/-- The `Error` sub-dict of a model description. -/
structure ErrorDesc where
  Family : Option String
  Link : Option String

/-- The "Model" section of a BIDS-StatsModel description:
`model.get('X', [])` and `model.get('VarianceComponents', [])` default to
empty lists, so absence and emptiness coincide and both are the empty
list here. -/
structure ModelD where
  X : List String
  VarianceComponents : List VCDesc
  Error : Option ErrorDesc

/-- Insertion into a sorted list (ascending). -/
def insSorted (x : Int) : List Int → List Int
  | [] => [x]
  | y :: ys => if x ≤ y then x :: y :: ys else y :: insSorted x ys

/-- Insertion sort (ascending). -/
def sortInts (xs : List Int) : List Int := xs.foldr insSorted []

/-- Drop adjacent duplicates of a sorted list. -/
def dedupSorted : List Int → List Int
  | [] => []
  | [x] => [x]
  | x :: y :: r => if x = y then dedupSorted (y :: r) else x :: dedupSorted (y :: r)

/-- `pd.get_dummies(data).values`: one binary indicator column per
distinct value, columns ordered by sorted level. -/
def get_dummies (data : List Int) : Mat :=
  let levels := dedupSorted (sortInts data)
  ⟨data.length, levels.map (fun l => data.map (fun x => if x = l then (1 : Int) else 0))⟩

/-- The incidence matrix built in `from_collection`: `np.zeros((total,
k))` with `groups[c:(c+n_i), i] = 1` for the i-th descriptor's contiguous
block of `n_i` Z columns. -/
def blockIncidence (sizes : List Nat) : Mat :=
  let total := sizes.sum
  ⟨total,
    (List.range sizes.length).map (fun i =>
      let before := (sizes.take i).sum
      let n := sizes.getD i 0
      (List.range total).map (fun r =>
        if before ≤ r ∧ r < before + n then (1 : Int) else 0))⟩

/-- A Python list-building `for` loop over fallible steps: apply `f` to
each element in order, stopping at the first raise. -/
def mapME {α β : Type} (f : α → Except String β) : List α → Except String (List β)
  | [] => Except.ok []
  | a :: l => f a >>= fun b => mapME f l >>= fun bs => Except.ok (b :: bs)

/-- One iteration of the `for vc in vcs` loop building `Z_list`: a
`LevelsFrom` descriptor one-hot expands the named variable's raw values
(a missing variable is a KeyError), otherwise the `Levels` key is read (a
KeyError when absent) and its patterns are resolved and extracted. -/
def vcBlock (c : Collection) (vc : VCDesc) : Except String Mat :=
  match vc.LevelsFrom with
  | some v =>
      match c.variablesD v with
      | none => Except.error ("KeyError: " ++ v)
      | some data => Except.ok (get_dummies data)
  | none =>
      match vc.Levels with
      | none => Except.error "KeyError: Levels"
      | some pats =>
          let ns := c.match_variables pats
          Except.ok (dfValues (dfLoc (c.to_df ns) ns))

/-- The labeling comprehension `[vc['Name'] for vc in vcs]` applied to one
descriptor: a KeyError when the `Name` key is absent. -/
def vcName (vc : VCDesc) : Except String String :=
  match vc.Name with
  | none => Except.error "KeyError: Name"
  | some n => Except.ok n

/-- `GLMMSpec.from_collection`: reject run-level collections that are not
all dense, resolve the fixed-effect names into a tabular block, build the
per-descriptor Z blocks, concatenate them, build the block incidence
matrix labeled by each descriptor's `Name`, and hand everything to the
`GLMMSpec` constructor together with the Error family/link fields. -/
def from_collection (c : Collection) (m : ModelD) : Except String GLMMSpec :=
  if c.isRunLevel && !c.all_dense then
    Except.error "Input BIDSRunVariableCollection contains at least one sparse variable. All variables must be dense!"
  else
    let fam := match m.Error with
      | some e => e.Family
      | none => none
    let lnk := match m.Error with
      | some e => e.Link
      | none => none
    let xArg : Option DataFrame :=
      if m.X.isEmpty then none
      else
        let ns := c.match_variables m.X
        some (dfLoc (c.to_df ns) ns)
    if m.VarianceComponents.isEmpty then
      GLMMSpec.init none xArg none none none fam lnk
    else
      (mapME (vcBlock c) m.VarianceComponents) >>= fun Z_list =>
      let Z := hcat Z_list
      let incidence := blockIncidence (Z_list.map (fun b => b.cols.length))
      (mapME vcName m.VarianceComponents) >>= fun names =>
      GLMMSpec.init none xArg (some Z) (some ⟨incidence, some names⟩) none fam lnk

/-- A concrete spec holding two variance components (two levels and one
level respectively), used to instantiate the Z-property theorem. -/
def exampleVCSpec : GLMMSpec :=
  ⟨[("u", mkVarComp "u" ⟨2, [[1, 0], [0, 1]]⟩),
    ("v", mkVarComp "v" ⟨2, [[1, 1]]⟩)], none, none, none⟩

/-! ### Helper lemmas -/

theorem except_error_bind {ε α β : Type} (e : ε) (k : α → Except ε β) :
    (Except.error e >>= k) = Except.error e := rfl

theorem except_ok_bind {ε α β : Type} (a : α) (k : α → Except ε β) :
    (Except.ok (ε := ε) a >>= k) = k a := rfl

theorem alist_get_append_of_none {α : Type} (xs ys : List (String × α))
    (k : String) (h : alist_get xs k = none) :
    alist_get (xs ++ ys) k = alist_get ys k := by
  induction xs with
  | nil => simp
  | cons p rest ih =>
      obtain ⟨k2, v⟩ := p
      by_cases hk : k2 = k
      · simp [alist_get, hk] at h
      · simp only [alist_get, hk, if_neg hk, List.cons_append] at h ⊢
        exact ih h

theorem alist_get_append_of_some {α : Type} (xs ys : List (String × α))
    (k : String) (v : α) (h : alist_get xs k = some v) :
    alist_get (xs ++ ys) k = some v := by
  induction xs with
  | nil => simp [alist_get] at h
  | cons p rest ih =>
      obtain ⟨k2, w⟩ := p
      by_cases hk : k2 = k
      · simp_all [alist_get, hk]
      · simp only [alist_get, hk, if_neg hk, List.cons_append] at h ⊢
        exact ih h

theorem length_concatAll {α : Type} (ls : List (List α)) :
    (concatAll ls).length = (ls.map List.length).sum := by
  induction ls with
  | nil => simp [concatAll]
  | cons l ls ih => simp [concatAll, ih]

theorem zip_replicate_one_filterMap (l : List (List Int)) :
    (l.zip (List.replicate l.length (1 : Int))).filterMap
      (fun p => if p.2 = 0 then none else some p.1) = l := by
  induction l with
  | nil => rfl
  | cons a l ih =>
      simp only [List.length_cons, List.replicate_succ, List.zip_cons_cons,
        List.filterMap_cons]
      norm_num [ih]

theorem selectCols_ones (Z : Mat) : selectCols Z (onesCol Z.cols.length) = Z := by
  show (⟨Z.nrows, _⟩ : Mat) = Z
  rw [onesCol, zip_replicate_one_filterMap]

theorem build_fixed_terms_fold (cs : List DFCol) :
    ∀ g : GLMMSpec,
      (∀ col ∈ cs, alist_get g.terms col.name = none) →
      cs.Pairwise (fun a b => a.name ≠ b.name) →
      cs.foldlM
          (fun g2 col =>
            g2.add_term (mkTerm col.name ⟨col.data.length, [col.data]⟩ (dtype_is_cat col.dtype)))
          g
        = Except.ok { g with terms := g.terms ++ cs.map (fun col =>
            (col.name, mkTerm col.name ⟨col.data.length, [col.data]⟩ (dtype_is_cat col.dtype))) } := by
  induction cs with
  | nil =>
      intro g _ _
      simp [pure, Except.pure]
  | cons c cs ih =>
      intro g hfresh hpair
      have hc : alist_get g.terms c.name = none := hfresh c (by simp)
      have e1 : g.add_term (mkTerm c.name ⟨c.data.length, [c.data]⟩ (dtype_is_cat c.dtype)) =
          Except.ok { g with terms := g.terms ++
            [(c.name, mkTerm c.name ⟨c.data.length, [c.data]⟩ (dtype_is_cat c.dtype))] } := by
        simp [GLMMSpec.add_term, mkTerm, hc]
      have hfresh2 : ∀ col ∈ cs,
          alist_get (g.terms ++
            [(c.name, mkTerm c.name ⟨c.data.length, [c.data]⟩ (dtype_is_cat c.dtype))]) col.name = none := by
        intro col hcol
        rw [alist_get_append_of_none _ _ _ (hfresh col (by simp [hcol]))]
        have hne : c.name ≠ col.name := (List.pairwise_cons.mp hpair).1 col hcol
        simp [alist_get, hne]
      have := ih { g with terms := g.terms ++
          [(c.name, mkTerm c.name ⟨c.data.length, [c.data]⟩ (dtype_is_cat c.dtype))] }
        hfresh2 (List.pairwise_cons.mp hpair).2
      rw [List.foldlM_cons, e1, except_ok_bind, this]
      simp

theorem get?_of_lt {α : Type} : ∀ (l : List α) (r : Nat), r < l.length →
    ∃ a, l.get? r = some a := by
  intro l
  induction l with
  | nil => intro r h; exact absurd h (by simp)
  | cons x xs ih =>
      intro r h
      cases r with
      | zero => exact ⟨x, rfl⟩
      | succ m => exact ih m (Nat.lt_of_succ_lt_succ h)

theorem get?_replicate_some {α : Type} (x : α) : ∀ (n r : Nat), r < n →
    (List.replicate n x).get? r = some x := by
  intro n
  induction n with
  | zero => intro r h; exact absurd h (Nat.not_lt_zero r)
  | succ n ih =>
      intro r h
      cases r with
      | zero => rfl
      | succ m => exact ih m (Nat.lt_of_succ_lt_succ h)

theorem get?_zipWith_some {α β γ : Type} (f : α → β → γ) :
    ∀ (l1 : List α) (l2 : List β) (r : Nat) (a : α) (b : β),
      l1.get? r = some a → l2.get? r = some b →
      (List.zipWith f l1 l2).get? r = some (f a b) := by
  intro l1
  induction l1 with
  | nil =>
      intro l2 r a b h1 _
      simp [List.get?] at h1
  | cons x xs ih =>
      intro l2 r a b h1 h2
      cases l2 with
      | nil => simp [List.get?] at h2
      | cons y ys =>
          cases r with
          | zero =>
              have h1' : some x = some a := h1
              have h2' : some y = some b := h2
              injection h1' with h1'
              injection h2' with h2'
              subst h1'
              subst h2'
              rfl
          | succ m => exact ih ys m a b h1 h2

/-- Per-row characterization of the `dummies_to_vec` loop: starting the
loop at column counter i over the remaining columns cs, row r of the
result holds i + k + 1 for the last remaining column k active at r, or
the starting vector's entry when none is. -/
theorem d2vLoop_char (r : Nat) :
    ∀ (cs : List (List Int)) (vec : List Nat) (i w : Nat),
      (∀ c ∈ cs, c.length = vec.length) → vec.get? r = some w → r < vec.length →
      ((∀ k c, cs.get? k = some c → c.get? r ≠ some 1)
          ∧ (d2vLoop vec i cs).get? r = some w)
      ∨ (∃ k c, cs.get? k = some c ∧ c.get? r = some 1
          ∧ (∀ j c2, k < j → cs.get? j = some c2 → c2.get? r ≠ some 1)
          ∧ (d2vLoop vec i cs).get? r = some (i + k + 1)) := by
  intro cs
  induction cs with
  | nil =>
      intro vec i w _ hv _
      left
      refine ⟨?_, hv⟩
      intro k c hk
      simp [List.get?] at hk
  | cons c rest ih =>
      intro vec i w hlen hv hr
      have hclen : c.length = vec.length := hlen c (by simp)
      obtain ⟨b, hb⟩ := get?_of_lt c r (by rw [hclen]; exact hr)
      have hv' : (maskAssign vec c (i + 1)).get? r =
          some (if b = 1 then i + 1 else w) :=
        get?_zipWith_some _ vec c r w b hv hb
      have hmlen : (maskAssign vec c (i + 1)).length = vec.length := by
        simp [maskAssign, List.length_zipWith, hclen]
      have hlen' : ∀ c2 ∈ rest, c2.length = (maskAssign vec c (i + 1)).length := by
        intro c2 hc2
        rw [hmlen]
        exact hlen c2 (by simp [hc2])
      have hr' : r < (maskAssign vec c (i + 1)).length := by rw [hmlen]; exact hr
      by_cases hb1 : b = 1
      · have hv2 : (maskAssign vec c (i + 1)).get? r = some (i + 1) := by
          simpa [hb1] using hv'
        rcases ih (maskAssign vec c (i + 1)) (i + 1) (i + 1) hlen' hv2 hr' with
          ⟨hno, hres⟩ | ⟨k, c2, hk, hhit, hlater, hres⟩
        · right
          refine ⟨0, c, rfl, by rw [hb, hb1], ?_, ?_⟩
          · intro j c2 hj hjc
            cases j with
            | zero => omega
            | succ m => exact hno m c2 hjc
          · have he : i + 0 + 1 = i + 1 := by omega
            rw [he]
            exact hres
        · right
          refine ⟨k + 1, c2, hk, hhit, ?_, ?_⟩
          · intro j c3 hj hjc
            cases j with
            | zero => omega
            | succ m => exact hlater m c3 (by omega) hjc
          · have he : i + (k + 1) + 1 = i + 1 + k + 1 := by omega
            rw [he]
            exact hres
      · have hv2 : (maskAssign vec c (i + 1)).get? r = some w := by
          simpa [hb1] using hv'
        rcases ih (maskAssign vec c (i + 1)) (i + 1) w hlen' hv2 hr' with
          ⟨hno, hres⟩ | ⟨k, c2, hk, hhit, hlater, hres⟩
        · left
          refine ⟨?_, hres⟩
          intro k c2 hk
          cases k with
          | zero =>
              have hc2 : some c = some c2 := hk
              injection hc2 with hc2
              subst hc2
              rw [hb]
              intro hcontra
              injection hcontra with hcontra
              exact hb1 hcontra
          | succ m => exact hno m c2 hk
        · right
          refine ⟨k + 1, c2, hk, hhit, ?_, ?_⟩
          · intro j c3 hj hjc
            cases j with
            | zero => omega
            | succ m => exact hlater m c3 (by omega) hjc
          · have he : i + (k + 1) + 1 = i + 1 + k + 1 := by omega
            rw [he]
            exact hres

/-! ### Claim theorems -/

/-- C1: the claim says a transformation spec whose sanitized Name resolves
to a registered handler has that handler invoked on the collection.  In
the source the invocation statement is indented inside the
`if func is None:` branch, so a handler found in the instance registry is
never called: registering an incrementing handler under the reserved name
And and transforming with Name And leaves the collection at 0, while the
same handler reached through the default-module fallback is invoked and
yields 1. -/
theorem transform_skips_registered_handler :
    ((⟨[], fun _ => none⟩ : TransformerManager Nat).register "And"
        (fun c _ _ => c + 1)).transform 0 [⟨"And", none, []⟩] = Except.ok 0
    ∧ (⟨[], fun n => if n = "And_" then some (fun c _ _ => c + 1) else none⟩ :
        TransformerManager Nat).transform 0 [⟨"And", none, []⟩] = Except.ok 1 :=
  ⟨rfl, rfl⟩

/-- C5: `add_term` with a name already present raises the duplicate-term
error (and, the model being pure, yields no new state), while two
successive `add_term` calls with distinct fresh names both succeed and
both terms are found in the terms mapping under their names. -/
theorem add_term_duplicate_and_distinct (g : GLMMSpec) (t t1 t2 : Term)
    (hdup : (alist_get g.terms t.name).isSome = true)
    (h1 : alist_get g.terms t1.name = none)
    (h2 : alist_get g.terms t2.name = none)
    (h3 : t1.name ≠ t2.name) :
    g.add_term t = Except.error ("Term with name " ++ t.name ++ " already exists!")
    ∧ ∃ g2, (g.add_term t1 >>= fun g1 => g1.add_term t2) = Except.ok g2
        ∧ alist_get g2.terms t1.name = some t1
        ∧ alist_get g2.terms t2.name = some t2 := by
  constructor
  · simp [GLMMSpec.add_term, hdup]
  · have e1 : g.add_term t1 =
        Except.ok { g with terms := g.terms ++ [(t1.name, t1)] } := by
      simp [GLMMSpec.add_term, h1]
    have hfresh2 : alist_get (g.terms ++ [(t1.name, t1)]) t2.name = none := by
      rw [alist_get_append_of_none _ _ _ h2]
      simp [alist_get, h3]
    have e2 : GLMMSpec.add_term { g with terms := g.terms ++ [(t1.name, t1)] } t2 =
        Except.ok { g with terms := (g.terms ++ [(t1.name, t1)]) ++ [(t2.name, t2)] } := by
      simp [GLMMSpec.add_term, hfresh2]
    refine ⟨_, by rw [e1]; simpa using e2, ?_, ?_⟩
    · show alist_get (g.terms ++ [(t1.name, t1), (t2.name, t2)]) t1.name = some t1
      rw [alist_get_append_of_none _ _ _ h1]
      simp [alist_get]
    · show alist_get (g.terms ++ [(t1.name, t1), (t2.name, t2)]) t2.name = some t2
      rw [alist_get_append_of_none _ _ _ h2]
      simp [alist_get, h3]

/-- C5 witness: on an empty spec, adding the same term twice fails the
second time, and adding two distinctly named terms succeeds with both
present. -/
theorem add_term_duplicate_and_distinct_witness :
    GLMMSpec.add_term ⟨[("a", mkTerm "a" ⟨1, [[5]]⟩ false)], none, none, none⟩
        (mkTerm "a" ⟨1, [[5]]⟩ false)
      = Except.error ("Term with name " ++ "a" ++ " already exists!")
    ∧ ∃ g2, (GLMMSpec.add_term ⟨[("a", mkTerm "a" ⟨1, [[5]]⟩ false)], none, none, none⟩
          (mkTerm "b" ⟨1, [[6]]⟩ false) >>= fun g1 => g1.add_term (mkTerm "c" ⟨1, [[7]]⟩ true))
        = Except.ok g2
        ∧ alist_get g2.terms "b" = some (mkTerm "b" ⟨1, [[6]]⟩ false)
        ∧ alist_get g2.terms "c" = some (mkTerm "c" ⟨1, [[7]]⟩ true) :=
  add_term_duplicate_and_distinct _ _ _ _ (by decide) (by decide) (by decide) (by decide)

/-- C6: a transformation spec whose sanitized name is found neither in the
instance registry nor on the default module makes `transform` fail with
the configuration error naming the unresolved transformation. -/
theorem transform_unknown_name_error {C : Type} (tm : TransformerManager C)
    (coll : C) (t : TSpecD) (rest : List TSpecD)
    (h1 : alist_get tm.transformations (sanitize_name t.Name) = none)
    (h2 : tm.default (sanitize_name t.Name) = none) :
    tm.transform coll (t :: rest) =
      Except.error ("No transformation " ++ sanitize_name t.Name ++ " found: either explicitly register a handler, or pass a default module that supports it.") := by
  simp [TransformerManager.transform, transformStep, h1, h2, except_error_bind]

/-- C6 witness: an empty manager rejects the spec named Scale with the
unknown-transformation error. -/
theorem transform_unknown_name_error_witness :
    (⟨[], fun _ => none⟩ : TransformerManager Nat).transform 0 [⟨"Scale", none, []⟩] =
      Except.error ("No transformation " ++ "Scale" ++ " found: either explicitly register a handler, or pass a default module that supports it.") :=
  transform_unknown_name_error _ 0 ⟨"Scale", none, []⟩ [] rfl rfl

/-- C7: a run-level collection that is not all dense makes
`from_collection` fail with the sparse-input error before anything is
built, whatever the model description. -/
theorem from_collection_sparse_error (c : Collection) (m : ModelD)
    (h1 : c.isRunLevel = true) (h2 : c.all_dense = false) :
    from_collection c m = Except.error "Input BIDSRunVariableCollection contains at least one sparse variable. All variables must be dense!" := by
  simp [from_collection, h1, h2]

/-- C2: the claim says the `X` property concatenates the non-variance
terms into a labeled design matrix, so that a spec built by
`from_collection` with model X resolving to age, sex exposes those two
columns.  In the source the comprehension is passed to `zip` without the
unpacking star, so with two fixed terms the later concatenate call is fed
a singleton holding a (name, values) pair and raises; `from_collection`
builds the two fixed terms fine, but reading `X` then fails. -/
theorem X_property_raises_on_nonempty :
    ∃ g, from_collection
        ⟨false, true, fun ps => ps,
          fun ns => ⟨ns.map (fun n => ⟨n, Dtype.int64, [10, 20]⟩)⟩,
          fun _ => none⟩
        ⟨["age", "sex"], [], none⟩ = Except.ok g
      ∧ g.fixed_terms = [mkTerm "age" ⟨2, [[10, 20]]⟩ false, mkTerm "sex" ⟨2, [[10, 20]]⟩ false]
      ∧ g.Xdm = Except.error "numpy concatenate: axis 1 is out of bounds, the lone element of cols is a pair and not a 2-D array" :=
  ⟨_, rfl, rfl, rfl⟩

/-- C7 witness: a concrete sparse run-level collection is rejected. -/
theorem from_collection_sparse_error_witness :
    from_collection ⟨true, false, fun ps => ps, fun _ => ⟨[]⟩, fun _ => none⟩
        ⟨["age"], [], none⟩ =
      Except.error "Input BIDSRunVariableCollection contains at least one sparse variable. All variables must be dense!" :=
  from_collection_sparse_error _ _ rfl rfl

/-- C4: with at least one variance component, the `Z` property returns
the horizontal concatenation of the components' values in iteration
order, labeled name.0, name.1, ... within each component's block, and its
total column count is the sum of the components' level counts; with no
variance components it returns the absent result. -/
theorem Z_concat_labels_and_counts (g : GLMMSpec) :
    (g.variance_components = [] → g.Zdm = none)
    ∧ (g.variance_components ≠ [] →
        ∃ names M, g.Zdm = some (names, M)
          ∧ names = concatAll (g.variance_components.map (fun t =>
              (List.range t.values.cols.length).map (fun i => t.name ++ "." ++ toString i)))
          ∧ M.cols = concatAll (g.variance_components.map (fun t => t.values.cols))
          ∧ names.length = (g.variance_components.map (fun t => t.values.cols.length)).sum
          ∧ M.cols.length = (g.variance_components.map (fun t => t.values.cols.length)).sum) := by
  constructor
  · intro h
    simp [GLMMSpec.Zdm, h]
  · intro h
    have hne : g.variance_components.isEmpty = false := by
      simpa [List.isEmpty_iff] using h
    have hz : g.Zdm = some
        (concatAll (g.variance_components.map (fun t =>
            (List.range t.values.cols.length).map (fun i => t.name ++ "." ++ toString i))),
         hcat (g.variance_components.map Term.values)) := by
      simp [GLMMSpec.Zdm, hne]
    refine ⟨_, _, hz, rfl, ?_, ?_, ?_⟩
    · show concatAll ((g.variance_components.map Term.values).map Mat.cols) =
        concatAll (g.variance_components.map (fun t => t.values.cols))
      rw [List.map_map]
      simp only [Function.comp_def]
    · rw [length_concatAll, List.map_map]
      congr 1
      apply List.map_congr_left
      intro t _
      simp
    · show (concatAll ((g.variance_components.map Term.values).map Mat.cols)).length = _
      rw [length_concatAll, List.map_map, List.map_map]
      simp only [Function.comp_def]

/-- C8: `build_variance_components` with the `groups` argument omitted
assumes a single component spanning all of Z: exactly one `VarComp`,
named VC0, is appended to the terms mapping, and its values are all of
Z. -/
theorem build_variance_components_single_default (g : GLMMSpec) (Z : Mat)
    (sigma : Option Mat) (h : alist_get g.terms "VC0" = none) :
    g.build_variance_components Z none sigma none =
      Except.ok { g with terms := g.terms ++ [("VC0", mkVarComp "VC0" Z)] }
    ∧ (mkVarComp "VC0" Z).values = Z := by
  refine ⟨?_, rfl⟩
  have hs : ("VC" ++ toString (0 : Nat)) = "VC0" := rfl
  have hr : List.range 1 = [0] := rfl
  simp only [GLMMSpec.build_variance_components, Option.getD_none, List.length_cons,
    List.length_nil, Nat.zero_add, hr, List.map_cons, List.map_nil, List.foldlM_cons,
    List.foldlM_nil, List.get?, List.getD, Option.getD_some, hs, selectCols_ones,
    GLMMSpec.add_term, h, Option.isSome_none, Bool.false_eq_true, if_false,
    except_ok_bind]
  have hn : (mkVarComp "VC0" Z).name = "VC0" := rfl
  rw [hn, h]
  rfl

/-- C8 witness: on an empty spec and a concrete 2x2 Z, the default call
adds the single VC0 component holding all of Z. -/
theorem build_variance_components_single_default_witness :
    GLMMSpec.build_variance_components ⟨[], none, none, none⟩ ⟨2, [[1, 0], [0, 1]]⟩
        none none none =
      Except.ok ⟨[("VC0", mkVarComp "VC0" ⟨2, [[1, 0], [0, 1]]⟩)], none, none, none⟩
    ∧ (mkVarComp "VC0" ⟨2, [[1, 0], [0, 1]]⟩).values = ⟨2, [[1, 0], [0, 1]]⟩ :=
  build_variance_components_single_default ⟨[], none, none, none⟩ _ none rfl

/-- C9: `build_fixed_terms` constructs one Term per column of the
tabular input, named by the column label, holding the column data, with
the categorical flag inferred from the declared dtype; the flag is true
exactly for the object, category and str dtypes and false for the numeric
ones. -/
theorem build_fixed_terms_dtype_flags (g : GLMMSpec) (X : DataFrame)
    (hfresh : ∀ col ∈ X.cols, alist_get g.terms col.name = none)
    (hnodup : X.cols.Pairwise (fun a b => a.name ≠ b.name)) :
    g.build_fixed_terms X = Except.ok { g with terms := g.terms ++ X.cols.map (fun col =>
        (col.name, mkTerm col.name ⟨col.data.length, [col.data]⟩ (dtype_is_cat col.dtype))) }
    ∧ ∀ d : Dtype, dtype_is_cat d = true ↔
        (d = Dtype.objectD ∨ d = Dtype.categoryD ∨ d = Dtype.strD) :=
  ⟨build_fixed_terms_fold X.cols g hfresh hnodup, by intro d; cases d <;> decide⟩

/-- C9 witness: a frame with one textual (object-dtype) and one numeric
(int64) column yields two fixed terms whose categorical flags are true
and false respectively. -/
theorem build_fixed_terms_dtype_flags_witness :
    GLMMSpec.build_fixed_terms ⟨[], none, none, none⟩
        ⟨[⟨"label", Dtype.objectD, [0, 1]⟩, ⟨"age", Dtype.int64, [30, 40]⟩]⟩ =
      Except.ok ⟨[("label", mkTerm "label" ⟨2, [[0, 1]]⟩ true),
                  ("age", mkTerm "age" ⟨2, [[30, 40]]⟩ false)], none, none, none⟩
    ∧ ∀ d : Dtype, dtype_is_cat d = true ↔
        (d = Dtype.objectD ∨ d = Dtype.categoryD ∨ d = Dtype.strD) :=
  build_fixed_terms_dtype_flags ⟨[], none, none, none⟩
    ⟨[⟨"label", Dtype.objectD, [0, 1]⟩, ⟨"age", Dtype.int64, [30, 40]⟩]⟩
    (by decide) (by decide)

/-- C3: every `VarComp` stores `index_vec = dummies_to_vec(values)`; on
the one-hot matrix with rows 10 / 01 / 10 / 00, `dummies_to_vec` returns
1, 2, 1, 0; and row r of the result is k+1 for the largest column index k
whose entry at row r is 1, and 0 when no column is active at row r. -/
theorem dummies_to_vec_last_active (M : Mat) (r : Nat)
    (hlen : ∀ c ∈ M.cols, c.length = M.nrows) (hr : r < M.nrows) :
    (∀ s : String, (mkVarComp s M).index_vec = dummies_to_vec M)
    ∧ dummies_to_vec ⟨4, [[1, 0, 1, 0], [0, 1, 0, 0]]⟩ = [1, 2, 1, 0]
    ∧ (((∀ k c, M.cols.get? k = some c → c.get? r ≠ some 1)
          ∧ (dummies_to_vec M).get? r = some 0)
       ∨ (∃ k c, M.cols.get? k = some c ∧ c.get? r = some 1
          ∧ (∀ j c2, k < j → M.cols.get? j = some c2 → c2.get? r ≠ some 1)
          ∧ (dummies_to_vec M).get? r = some (k + 1))) := by
  refine ⟨fun s => rfl, by decide, ?_⟩
  have h0 : (List.replicate M.nrows (0 : Nat)).get? r = some 0 :=
    get?_replicate_some 0 M.nrows r hr
  have hlen' : ∀ c ∈ M.cols, c.length = (List.replicate M.nrows (0 : Nat)).length := by
    intro c hc
    rw [hlen c hc]
    simp
  have hr' : r < (List.replicate M.nrows (0 : Nat)).length := by simpa using hr
  rcases d2vLoop_char r M.cols (List.replicate M.nrows 0) 0 0 hlen' h0 hr' with
    h | ⟨k, c, h1, h2, h3, h4⟩
  · exact Or.inl h
  · right
    refine ⟨k, c, h1, h2, h3, ?_⟩
    have he : k + 1 = 0 + k + 1 := by omega
    rw [he]
    exact h4

/-- C3 witness: the characterization instantiated on the one-hot example
matrix at row 1, where the active column is the second one. -/
theorem dummies_to_vec_last_active_witness :
    (∀ s : String, (mkVarComp s ⟨4, [[1, 0, 1, 0], [0, 1, 0, 0]]⟩).index_vec =
        dummies_to_vec ⟨4, [[1, 0, 1, 0], [0, 1, 0, 0]]⟩)
    ∧ dummies_to_vec ⟨4, [[1, 0, 1, 0], [0, 1, 0, 0]]⟩ = [1, 2, 1, 0]
    ∧ (((∀ k c, ([[1, 0, 1, 0], [0, 1, 0, 0]] : List (List Int)).get? k = some c →
            c.get? 1 ≠ some 1)
          ∧ (dummies_to_vec ⟨4, [[1, 0, 1, 0], [0, 1, 0, 0]]⟩).get? 1 = some 0)
       ∨ (∃ k c, ([[1, 0, 1, 0], [0, 1, 0, 0]] : List (List Int)).get? k = some c
          ∧ c.get? 1 = some 1
          ∧ (∀ j c2, k < j →
              ([[1, 0, 1, 0], [0, 1, 0, 0]] : List (List Int)).get? j = some c2 →
              c2.get? 1 ≠ some 1)
          ∧ (dummies_to_vec ⟨4, [[1, 0, 1, 0], [0, 1, 0, 0]]⟩).get? 1 = some (k + 1))) :=
  dummies_to_vec_last_active ⟨4, [[1, 0, 1, 0], [0, 1, 0, 0]]⟩ 1 (by decide) (by decide)

/-- C4 witness: the Z property of the two-component example exposes the
labels u.0, u.1, v.0 and three columns, the sum of the components' level
counts. -/
theorem Z_concat_labels_and_counts_witness :
    ∃ names M, GLMMSpec.Zdm exampleVCSpec = some (names, M)
      ∧ names = ["u.0", "u.1", "v.0"]
      ∧ names.length = 3
      ∧ M.cols.length = 3 := by
  obtain ⟨names, M, h1, h2, _, h4, h5⟩ :=
    (Z_concat_labels_and_counts exampleVCSpec).2 (by decide)
  refine ⟨names, M, h1, ?_, ?_, ?_⟩
  · rw [h2]
    decide
  · rw [h4]
    decide
  · rw [h5]
    decide

/-- The `Z_list` loop of `from_collection` succeeds on every descriptor
that either one-hot expands an existing variable or carries a `Levels`
key. -/
theorem mapME_vcBlock_ok (c : Collection) :
    ∀ vcs : List VCDesc,
      (∀ d ∈ vcs, (∃ s, d.LevelsFrom = some s ∧ (c.variablesD s).isSome = true)
        ∨ (d.LevelsFrom = none ∧ d.Levels.isSome = true)) →
      ∃ zl, mapME (vcBlock c) vcs = Except.ok zl := by
  intro vcs
  induction vcs with
  | nil => intro _; exact ⟨[], rfl⟩
  | cons d rest ih =>
      intro h
      have hblock : ∃ b, vcBlock c d = Except.ok b := by
        rcases h d (by simp) with ⟨s, hs, hv⟩ | ⟨hnone, hlev⟩
        · obtain ⟨data, hdata⟩ := Option.isSome_iff_exists.mp hv
          exact ⟨get_dummies data, by simp [vcBlock, hs, hdata]⟩
        · obtain ⟨ls, hls⟩ := Option.isSome_iff_exists.mp hlev
          exact ⟨dfValues (dfLoc (c.to_df (c.match_variables ls)) (c.match_variables ls)),
            by simp [vcBlock, hnone, hls]⟩
      obtain ⟨b, hb⟩ := hblock
      obtain ⟨zl, hzl⟩ := ih (fun d2 h2 => h d2 (by simp [h2]))
      exact ⟨b :: zl, by simp [mapME, hb, hzl, except_ok_bind]⟩

/-- The labeling comprehension fails with the Name key error as soon as
some descriptor lacks the key. -/
theorem mapME_vcName_error :
    ∀ vcs : List VCDesc, (∃ d ∈ vcs, d.Name = none) →
      mapME vcName vcs = Except.error "KeyError: Name" := by
  intro vcs
  induction vcs with
  | nil => intro h; simp at h
  | cons d rest ih =>
      intro h
      cases hn : d.Name with
      | none => simp [mapME, vcName, hn, except_error_bind]
      | some n =>
          have hrest : ∃ d2 ∈ rest, d2.Name = none := by
            rcases h with ⟨d2, hd2, hnone⟩
            rcases List.mem_cons.mp hd2 with rfl | hmem
            · rw [hn] at hnone
              exact absurd hnone (by simp)
            · exact ⟨d2, hmem, hnone⟩
          simp [mapME, vcName, hn, ih hrest, except_ok_bind, except_error_bind]

/-- C10: a model description whose VarianceComponents list contains a
descriptor lacking the Name key makes `from_collection` fail with the
key-lookup error while labeling the incidence-matrix columns, even when
every descriptor (the nameless one included) was accepted while the
combined Z block was built. -/
theorem from_collection_requires_name_key (c : Collection) (m : ModelD)
    (hdense : c.isRunLevel = true → c.all_dense = true)
    (hbuild : ∀ d ∈ m.VarianceComponents,
      (∃ s, d.LevelsFrom = some s ∧ (c.variablesD s).isSome = true)
      ∨ (d.LevelsFrom = none ∧ d.Levels.isSome = true))
    (hname : ∃ d ∈ m.VarianceComponents, d.Name = none) :
    from_collection c m = Except.error "KeyError: Name" := by
  have hcond : (c.isRunLevel && !c.all_dense) = false := by
    cases hb : c.isRunLevel
    · simp
    · simp [hdense hb]
  have hne : m.VarianceComponents.isEmpty = false := by
    rcases hname with ⟨d, hd, _⟩
    cases hvc : m.VarianceComponents with
    | nil => rw [hvc] at hd; simp at hd
    | cons a l => rfl
  obtain ⟨zl, hzl⟩ := mapME_vcBlock_ok c m.VarianceComponents hbuild
  have hnm := mapME_vcName_error m.VarianceComponents hname
  simp [from_collection, hcond, hne, hzl, hnm, except_ok_bind, except_error_bind]

/-- C10 witness: one descriptor of the LevelsFrom-only form (no Name key)
over a collection holding the referenced variable: the Z block is
buildable yet `from_collection` fails with the Name key error. -/
theorem from_collection_requires_name_key_witness :
    from_collection
        ⟨true, true, fun ps => ps, fun _ => ⟨[]⟩,
          fun s => if s = "subject" then some [1, 1, 2] else none⟩
        ⟨[], [⟨some "subject", none, none⟩], none⟩ = Except.error "KeyError: Name" :=
  from_collection_requires_name_key _ _ (fun _ => rfl)
    (by
      intro d hd
      simp only [List.mem_singleton] at hd
      subst hd
      left
      exact ⟨"subject", rfl, rfl⟩)
    ⟨⟨some "subject", none, none⟩, by simp, rfl⟩

end ModelDesign
